import Mathlib

/-!
Verification of the IPv6 subnet-calculator core of this repository
(`src/utils/ipv6.ts` and `src/utils/csvExport.ts`).

JavaScript strings are modelled as `List Char`; each JS primitive the code
uses (`split`, `trim`, `padStart`, `repeat`, `substring`, `substr`, `slice`,
`parseInt`, `Number.prototype.toString`, template literals, `Array.join`)
is given a faithful executable model below.  A thrown exception is modelled
as `Option.none`; the `try/catch` in the source folds it back to `null`.
-/

set_option maxRecDepth 8192

/-- Shorthand turning a Lean string literal into the `List Char` model of a
JS string. -/
def lc (s : String) : List Char := s.toList

/-- Whitespace recognised by JS `String.prototype.trim` (ASCII whitespace,
NBSP and the BOM; the characters relevant to this development). -/
def isJsWhitespace (c : Char) : Bool :=
  c.toNat = 32 || (9 ≤ c.toNat && c.toNat ≤ 13) || c.toNat = 160 || c.toNat = 65279

/-- Model of JS `String.prototype.trim`: strip leading and trailing
whitespace. -/
def jsTrim (s : List Char) : List Char :=
  ((s.dropWhile isJsWhitespace).reverse.dropWhile isJsWhitespace).reverse

/-- Numeric value of a character as a digit, as used by JS `parseInt`:
`0`-`9` map to 0-9, `a`-`z` and `A`-`Z` map to 10-35, anything else gets a
value (99) that is never below any radix in use. -/
def digitVal (c : Char) : Nat :=
  if 48 ≤ c.toNat ∧ c.toNat ≤ 57 then c.toNat - 48
  else if 97 ≤ c.toNat ∧ c.toNat ≤ 122 then c.toNat - 87
  else if 65 ≤ c.toNat ∧ c.toNat ≤ 90 then c.toNat - 55
  else 99

/-- The character class of the regex `[0-9A-Fa-f]`. -/
def isHexDigit (c : Char) : Bool := digitVal c < 16

/-- Model of JS `s.split(':')` (single-character separator): every colon
starts a new, possibly empty, segment; the result is never empty. -/
def splitColon : List Char → List (List Char)
  | [] => [[]]
  | c :: rest =>
    if c = ':' then [] :: splitColon rest
    else
      match splitColon rest with
      | [] => [[c]]
      | g :: gs => (c :: g) :: gs

/-- Model of JS `s.split('::')`: greedy left-to-right non-overlapping
matches of the two-character separator. -/
def splitDColon : List Char → List (List Char)
  | ':' :: ':' :: rest => [] :: splitDColon rest
  | c :: rest =>
    (match splitDColon rest with
     | [] => [[c]]
     | g :: gs => (c :: g) :: gs)
  | [] => [[]]

/-- Model of `(s.match(/::/g) || []).length`: the number of greedy
non-overlapping occurrences of `::`. -/
def countDColon : List Char → Nat
  | ':' :: ':' :: rest => countDColon rest + 1
  | _ :: rest => countDColon rest
  | [] => 0

/-- Model of JS `Array.prototype.join(sep)`. -/
def joinSep (sep : List Char) : List (List Char) → List Char
  | [] => []
  | [x] => x
  | x :: xs => x ++ sep ++ joinSep sep xs

/-- `join(':')`. -/
def joinColon (xs : List (List Char)) : List Char := joinSep [':'] xs

/-- Model of JS `s.padStart(n, c)` (no-op when `s` is already long
enough). -/
def padStart (n : Nat) (c : Char) (s : List Char) : List Char :=
  List.replicate (n - s.length) c ++ s

/-- Strip an optional `0x`/`0X` prefix, as JS `parseInt` does when the
radix is 16. -/
def hexPrefixStrip (t : List Char) : List Char :=
  match t with
  | '0' :: 'x' :: r => r
  | '0' :: 'X' :: r => r
  | _ => t

/-- Parse the maximal leading run of digits valid for `radix`; `none` when
there is no digit (JS `NaN`). -/
def parseDigitsNat (radix : Nat) (r : List Char) : Option Nat :=
  let ds := r.takeWhile (fun c => digitVal c < radix)
  if ds = [] then none
  else some (ds.foldl (fun acc c => acc * radix + digitVal c) 0)

/-- Model of JS `parseInt(s, radix)` for the radixes the source uses
(2 and 16): skip leading whitespace, optional sign, optional `0x` when the
radix is 16, then the maximal run of valid digits; `none` models `NaN`. -/
def jsParseInt (radix : Nat) (s : List Char) : Option Int :=
  let t := s.dropWhile isJsWhitespace
  let core := fun (r : List Char) =>
    parseDigitsNat radix (if radix = 16 then hexPrefixStrip r else r)
  match t with
  | '-' :: r => (core r).map (fun n => -(n : Int))
  | '+' :: r => (core r).map (fun n => (n : Int))
  | r => (core r).map (fun n => (n : Int))

/-- The characters of the JS string `"NaN"` (what `NaN.toString(r)`
yields). -/
def nanChars : List Char := ['N', 'a', 'N']

/-- Model of JS `i.toString(radix)` for an integer value: lowercase
digits, `-` sign for negatives. -/
def jsIntToStr (radix : Nat) (i : Int) : List Char :=
  if i < 0 then '-' :: Nat.toDigits radix i.natAbs
  else Nat.toDigits radix i.toNat

/-- `parseInt(s, radix).toString(radixOut)` as the source composes them,
with `NaN` rendered as `"NaN"`. -/
def parseThenRender (radixIn radixOut : Nat) (s : List Char) : List Char :=
  match jsParseInt radixIn s with
  | none => nanChars
  | some v => jsIntToStr radixOut v

/-- Model of JS `c.repeat(n)` for an integer count: throws (`none`) when
the count is negative. -/
def jsRepeat (c : Char) (n : Int) : Option (List Char) :=
  if n < 0 then none else some (List.replicate n.toNat c)

/-- Model of JS `s.substring(0, e)` with an integer end index: negative
clamps to 0, beyond the length clamps to the length. -/
def jsSubstringZero (s : List Char) (e : Int) : List Char :=
  s.take e.toNat

/-- Clamp a JS integer index into `[0, len]` the way `Array.slice`
does (negative counts from the end). -/
def jsSliceIdx (len : Nat) (i : Int) : Nat :=
  if i < 0 then ((len : Int) + i).toNat else min i.toNat len

/-- Model of JS `a.slice(b)` on arrays. -/
def jsArrSliceFrom (s : List (List Char)) (b : Int) : List (List Char) :=
  s.drop (jsSliceIdx s.length b)

/-- Model of JS `a.slice(b, e)` on arrays. -/
def jsArrSlice (s : List (List Char)) (b e : Int) : List (List Char) :=
  (s.take (jsSliceIdx s.length e)).drop (jsSliceIdx s.length b)

/-- The group `'0000'`. -/
def zero4 : List Char := ['0', '0', '0', '0']

/-! ### `src/utils/ipv6.ts` -/

/-- Translation of `parts[0] ? parts[0].split(':') : []` where `parts =
t.split('::')`: the groups before the `::` (an empty or missing part
contributes no groups).  Used by both the validator and the expander,
which contain this same line. -/
def beforeGroupsOf (t : List Char) : List (List Char) :=
  match splitDColon t with
  | [] => []
  | p :: _ => if p = [] then [] else splitColon p

/-- Translation of `parts[1] ? parts[1].split(':') : []`: the groups
after the `::`. -/
def afterGroupsOf (t : List Char) : List (List Char) :=
  match (splitDColon t).get? 1 with
  | none => []
  | some p => if p = [] then [] else splitColon p

/-- The per-segment test of `isValidIPv6Address`: empty segments are
allowed (for `::`); otherwise the length cap and the regex
`^[0-9A-Fa-f]{1,4}$`. -/
def segmentOk (seg : List Char) : Bool :=
  if seg = [] then true
  else if seg.length > 4 then false
  else decide (1 ≤ seg.length) && decide (seg.length ≤ 4) && seg.all isHexDigit

/-- Body of `isValidIPv6Address` after the empty-string early return and
the trim; the source's early `return false`s become the leading boolean
conjunct, and its `const` bindings are inlined. -/
def isValidCore (a : List Char) : Bool :=
  if countDColon a > 1 then false
  else
    (if countDColon a = 1 then
      !(decide ((beforeGroupsOf a).length + (afterGroupsOf a).length > 7))
    else !(decide ((splitColon a).length ≠ 8)))
    && (splitColon a).all segmentOk

/-- `isValidIPv6Address` from `src/utils/ipv6.ts`. -/
def isValidIPv6Address (address : List Char) : Bool :=
  if address = [] then false
  else isValidCore (jsTrim address)

/-- `missing = 8 - (before.length + after.length)` of the expander (the
`padStart` maps preserve length, so the group counts are taken before
padding). -/
def expandMissing (address : List Char) : Int :=
  8 - (((beforeGroupsOf address).length : Int) + ((afterGroupsOf address).length : Int))

/-- `expandIPv6Address` from `src/utils/ipv6.ts`.  `none` models the
`RangeError` thrown by `Array(missing)` when `missing` is negative; the
function otherwise never throws. -/
def expandIPv6Address (address : List Char) : Option (List Char) :=
  if address = [] then some []
  else if (splitDColon address).length > 2 then some []
  else if expandMissing address < 0 then none
  else
    some (joinColon
      ((beforeGroupsOf address).map (padStart 4 '0')
        ++ List.replicate (expandMissing address).toNat zero4
        ++ (afterGroupsOf address).map (padStart 4 '0')))

/-- One hextet of the expanded address rendered as 16 binary characters:
`parseInt(hex, 16).toString(2).padStart(16, '0')`. -/
def hexGroupToBin (g : List Char) : List Char :=
  padStart 16 '0' (parseThenRender 16 2 g)

/-- The 128-character binary string `calculateIPv6Subnet` accumulates. -/
def buildBinary (expanded : List Char) : List Char :=
  (splitColon expanded).foldl (fun acc hx => acc ++ hexGroupToBin hx) []

/-- One 16-character chunk of a binary string rendered back to a
zero-padded hex group: `parseInt(bin.substr(i,16), 2).toString(16)
.padStart(4, '0')`. -/
def binChunkToHexGroup (bin : List Char) (i : Nat) : List Char :=
  padStart 4 '0' (parseThenRender 2 16 ((bin.drop i).take 16))

/-- The loop `for (i = 0; i < 128; i += 16)` collecting the 8 hex
groups. -/
def binToHexGroups (bin : List Char) : List (List Char) :=
  (List.range 8).map (fun k => binChunkToHexGroup bin (16 * k))

/-- The scan state of `compressIPv6Address`'s zero-run loop; `-1`
sentinels exactly as in the source. -/
structure ZeroScan where
  longestZeroStart : Int
  longestZeroLength : Nat
  currentZeroStart : Int
  currentZeroLength : Nat
deriving DecidableEq

/-- One iteration of the zero-run loop, parameterised by the result of
the `segments[i] === '0000'` test. -/
def zeroScanStep (i : Nat) (st : ZeroScan) (isZero : Bool) : ZeroScan :=
  if isZero then
    let cs : Int := if st.currentZeroStart = -1 then (i : Int) else st.currentZeroStart
    let cl := st.currentZeroLength + 1
    if cl > st.longestZeroLength then ⟨cs, cl, cs, cl⟩
    else ⟨st.longestZeroStart, st.longestZeroLength, cs, cl⟩
  else ⟨st.longestZeroStart, st.longestZeroLength, -1, 0⟩

/-- The zero-run loop over the segment array. -/
def zeroScanGo : Nat → ZeroScan → List (List Char) → ZeroScan
  | _, st, [] => st
  | i, st, seg :: rest => zeroScanGo (i + 1) (zeroScanStep i st (decide (seg = zero4))) rest

/-- The zero-run loop viewed on the boolean mask `segments.map (· ===
'0000')`; `zeroScanGo` factors through it. -/
def zeroScanGoM : Nat → ZeroScan → List Bool → ZeroScan
  | _, st, [] => st
  | i, st, b :: rest => zeroScanGoM (i + 1) (zeroScanStep i st b) rest

/-- Segment rendering used by the compressor:
`parseInt(s, 16).toString(16)`. -/
def renderSeg (s : List Char) : List Char := parseThenRender 16 16 s

/-- `compressIPv6Address` from `src/utils/ipv6.ts`. -/
def compressIPv6Address (address : List Char) : List Char :=
  let segments := splitColon address
  let st := zeroScanGo 0 ⟨-1, 0, -1, 0⟩ segments
  if st.longestZeroLength ≥ 2 then
    let before := (jsArrSlice segments 0 st.longestZeroStart).map renderSeg
    let after := (jsArrSliceFrom segments (st.longestZeroStart + (st.longestZeroLength : Int))).map renderSeg
    joinColon (before ++ [[]] ++ after)
  else joinColon (segments.map renderSeg)

/-- The result record of `calculateIPv6Subnet`. -/
structure IPv6SubnetResults where
  networkAddress : List Char
  lastAddress : List Char
  totalAddresses : List Char
deriving DecidableEq

/-- `calculateIPv6Subnet` from `src/utils/ipv6.ts`.  The surrounding
`try/catch` turns every thrown fault (`none` from a primitive) into
`null`, modelled as `none` of the whole function. -/
def calculateIPv6Subnet (address : List Char) (prefixLength : Int) : Option IPv6SubnetResults :=
  match expandIPv6Address address with
  | none => none
  | some expanded =>
    if expanded = [] then none
    else
      let binary := buildBinary expanded
      match jsRepeat '0' (128 - prefixLength), jsRepeat '1' (128 - prefixLength) with
      | some zs, some os =>
        let networkBinary := jsSubstringZero binary prefixLength ++ zs
        let lastBinary := jsSubstringZero binary prefixLength ++ os
        let networkGroups := binToHexGroups networkBinary
        let lastGroups := binToHexGroups lastBinary
        let totalBits : Int := 128 - prefixLength
        let totalAddresses :=
          if totalBits = 0 then ['1'] else ['2', '^'] ++ jsIntToStr 10 totalBits
        some
          { networkAddress := compressIPv6Address (joinColon networkGroups)
            lastAddress := compressIPv6Address (joinColon lastGroups)
            totalAddresses := totalAddresses }
      | _, _ => none

/-! ### `src/utils/csvExport.ts` -/

/-- `generateIPv6CSV` from `src/utils/csvExport.ts`: the fixed row list,
each row joined with `','`, the rows joined with `'\n'`. -/
def generateIPv6CSV (results : IPv6SubnetResults) : List Char :=
  let rows : List (List (List Char)) :=
    [ [lc r"Property", lc r"Value"],
      [lc r"Network Address", results.networkAddress],
      [lc r"Last Address", results.lastAddress],
      [lc r"Total Addresses", results.totalAddresses] ]
  joinSep ['\n'] (rows.map (fun row => joinSep [','] row))

/-! ### Specification-side definitions

These follow the wording of the specification and of the claims, to be
compared with the source translations above. -/

/-- The spec's per-group condition: every non-empty group is 1-4 hex
digits. -/
def hexGroupOk (g : List Char) : Prop :=
  g = [] ∨ (1 ≤ g.length ∧ g.length ≤ 4 ∧ ∀ c ∈ g, isHexDigit c = true)

instance (g : List Char) : Decidable (hexGroupOk g) := by
  unfold hexGroupOk; infer_instance

/-- The validity condition exactly as the claim words it: at most one `::`
occurrence; without `::`, exactly 8 colon-separated groups; with one `::`,
groups before plus after total at most 7; every non-empty group is 1-4 hex
digits. -/
def specIsValidIPv6 (t : List Char) : Prop :=
  countDColon t ≤ 1 ∧
  (countDColon t = 0 → (splitColon t).length = 8) ∧
  (countDColon t = 1 → (beforeGroupsOf t).length + (afterGroupsOf t).length ≤ 7) ∧
  ∀ g ∈ splitColon t, hexGroupOk g

instance (t : List Char) : Decidable (specIsValidIPv6 t) := by
  unfold specIsValidIPv6; infer_instance

/-- The expansion as the (amended) claim describes it: empty result for an
empty input or more than one `::`; a thrown fault when the before- and
after-groups already exceed 8; otherwise the colon-join of the before
groups zero-padded to 4, `8 − (before.len + after.len)` all-zero groups,
and the after groups zero-padded to 4. -/
def specExpandIPv6 (s : List Char) : Option (List Char) :=
  if s = [] ∨ 2 < (splitDColon s).length then some []
  else if 8 < (beforeGroupsOf s).length + (afterGroupsOf s).length then none
  else
    some (joinColon
      ((beforeGroupsOf s).map (padStart 4 '0')
        ++ List.replicate (8 - ((beforeGroupsOf s).length + (afterGroupsOf s).length)) zero4
        ++ (afterGroupsOf s).map (padStart 4 '0')))

/-- A 1-4 digit hex group that is actually present (non-empty). -/
def nonemptyHexGroup (g : List Char) : Bool :=
  decide (1 ≤ g.length) && decide (g.length ≤ 4) && g.all isHexDigit

/-- Well-formedness of IPv6 text in the standard, strict sense (the spec's
intended grammar: no stray colons): either exactly 8 non-empty 1-4-digit
hex groups with no `::`, or a single `::` with at most 7 non-empty groups
split around it and no empty group on either side. -/
def strictWellFormedIPv6 (s : List Char) : Bool :=
  if countDColon s = 0 then
    let gs := splitColon s
    decide (gs.length = 8) && gs.all nonemptyHexGroup
  else if countDColon s = 1 then
    match splitDColon s with
    | [p0, p1] =>
      let bs := if p0 = [] then ([] : List (List Char)) else splitColon p0
      let aft := if p1 = [] then ([] : List (List Char)) else splitColon p1
      decide (bs.length + aft.length ≤ 7) && bs.all nonemptyHexGroup && aft.all nonemptyHexGroup
    | _ => false
  else false

/-- The boolean zero-group mask of a segment list (`true` marks
`'0000'`). -/
def zeroMask (gs : List (List Char)) : List Bool :=
  gs.map (fun g => decide (g = zero4))

/-- `isZeroRun m i l`: positions `i, …, i+l−1` of the mask are a maximal
run of zero groups (non-empty, bounded, not extendable on either side). -/
def isZeroRun (m : List Bool) (i l : Nat) : Prop :=
  1 ≤ l ∧ i + l ≤ m.length ∧
  (∀ k, k < l → m.getD (i + k) false = true) ∧
  (i = 0 ∨ m.getD (i - 1) false = false) ∧
  (i + l = m.length ∨ m.getD (i + l) false = false)

instance (m : List Bool) (i l : Nat) : Decidable (isZeroRun m i l) := by
  unfold isZeroRun; infer_instance

/-- What the compressor's scan must compute on a length-8 mask: its
recorded longest length bounds every maximal zero run, and when that
length is at least 2 its recorded start is the leftmost maximal run of
that length. -/
def scanOk (m : List Bool) : Prop :=
  (∀ j, j ≤ 8 → ∀ k, k ≤ 8 → isZeroRun m j k → k ≤ (zeroScanGoM 0 ⟨-1, 0, -1, 0⟩ m).longestZeroLength) ∧
  (2 ≤ (zeroScanGoM 0 ⟨-1, 0, -1, 0⟩ m).longestZeroLength →
    0 ≤ (zeroScanGoM 0 ⟨-1, 0, -1, 0⟩ m).longestZeroStart ∧
    isZeroRun m (zeroScanGoM 0 ⟨-1, 0, -1, 0⟩ m).longestZeroStart.toNat
      (zeroScanGoM 0 ⟨-1, 0, -1, 0⟩ m).longestZeroLength ∧
    ∀ j, j ≤ 8 → isZeroRun m j (zeroScanGoM 0 ⟨-1, 0, -1, 0⟩ m).longestZeroLength →
      (zeroScanGoM 0 ⟨-1, 0, -1, 0⟩ m).longestZeroStart.toNat ≤ j)

instance (m : List Bool) : Decidable (scanOk m) := by
  unfold scanOk; infer_instance

/-! ### Theorems -/

/-- C1: the spec example `calculate("2001:db8::", 64)` claims networkAddress
`2001:db8::` and totalAddresses `2^64`.  The code computes totalAddresses
`2^64` as claimed, but its compressor renders the trailing zero run with a
single trailing colon: the networkAddress field is `2001:db8:`, a text the
module's own `isValidIPv6Address` rejects. -/
theorem calculateIPv6Subnet_spec_example_eval :
    calculateIPv6Subnet (lc r"2001:db8::") 64
      = some ⟨lc r"2001:db8:", lc r"2001:db8::ffff:ffff:ffff:ffff", lc r"2^64"⟩ ∧
    lc r"2001:db8:" ≠ lc r"2001:db8::" ∧
    isValidIPv6Address (lc r"2001:db8:") = false := by
  refine ⟨by decide, by decide, by decide⟩

/-- C2: for the 8 zero-padded groups `0000:…:0000:0001` the longest
all-zero run (length 7, at position 0) is replaced by an empty group, but
the colon-join renders it as a single leading colon, so the output `:1`
contains no `::` at all, contradicting the claim that the run is replaced
by the empty token between two colons. -/
theorem compressIPv6Address_boundary_run_eval :
    compressIPv6Address
        (joinColon [zero4, zero4, zero4, zero4, zero4, zero4, zero4, lc r"0001"])
      = lc r":1" ∧
    isZeroRun (zeroMask [zero4, zero4, zero4, zero4, zero4, zero4, zero4, lc r"0001"]) 0 7 ∧
    countDColon (lc r":1") = 0 ∧
    isValidIPv6Address (lc r":1") = false := by
  refine ⟨by decide, by decide, by decide, by decide⟩

/-- C6: round trip on the example input: expansion of `2001:db8::1` and
compression of that expansion are exactly as the spec states. -/
theorem ipv6_roundtrip_example :
    expandIPv6Address (lc r"2001:db8::1")
      = some (lc r"2001:0db8:0000:0000:0000:0000:0000:0001") ∧
    compressIPv6Address (lc r"2001:0db8:0000:0000:0000:0000:0000:0001")
      = lc r"2001:db8::1" := by
  refine ⟨by decide, by decide⟩

/-- C9: `:::` and `1:::2` each contain exactly one non-overlapping `::`
match, every empty colon-separated segment is accepted, and the validator
classifies both as valid although neither is a well-formed IPv6 address in
the strict sense. -/
theorem isValid_accepts_stray_colons :
    isValidIPv6Address (lc r":::") = true ∧
    strictWellFormedIPv6 (lc r":::") = false ∧
    isValidIPv6Address (lc r"1:::2") = true ∧
    strictWellFormedIPv6 (lc r"1:::2") = false ∧
    countDColon (lc r":::") = 1 ∧
    countDColon (lc r"1:::2") = 1 := by
  refine ⟨by decide, by decide, by decide, by decide, by decide, by decide⟩

/-- C10: for every IPv6 result object the CSV text is exactly the header
row `Property,Value` followed by the three labelled rows, newline-joined,
comma-joined cells, with every field inserted verbatim (no escaping). -/
theorem generateIPv6CSV_shape (r : IPv6SubnetResults) :
    generateIPv6CSV r =
      lc r"Property,Value" ++ ['\n'] ++ lc r"Network Address," ++ r.networkAddress
        ++ ['\n'] ++ lc r"Last Address," ++ r.lastAddress
        ++ ['\n'] ++ lc r"Total Addresses," ++ r.totalAddresses := by
  cases r with
  | mk a b c => simp [generateIPv6CSV, joinSep, lc]

/-- The source's per-segment test agrees with the spec's per-group
condition. -/
theorem segmentOk_iff (g : List Char) : segmentOk g = true ↔ hexGroupOk g := by
  unfold segmentOk hexGroupOk
  rcases eq_or_ne g [] with h | h
  · rw [if_pos h]
    simp [h]
  · rw [if_neg h]
    by_cases h4 : g.length > 4
    · rw [if_pos h4]
      refine iff_of_false (by simp) ?_
      rintro (hf | ⟨-, h2, -⟩)
      · exact h hf
      · omega
    · rw [if_neg h4, Bool.and_eq_true, Bool.and_eq_true, decide_eq_true_eq,
        decide_eq_true_eq, List.all_eq_true]
      constructor
      · rintro ⟨⟨h1, h2⟩, h3⟩
        exact Or.inr ⟨h1, h2, h3⟩
      · rintro (hf | ⟨h1, h2, h3⟩)
        · exact absurd hf h
        · exact ⟨⟨h1, h2⟩, h3⟩

/-- The trimmed-body of the validator agrees with the spec's validity
condition. -/
theorem isValidCore_iff (t : List Char) : isValidCore t = true ↔ specIsValidIPv6 t := by
  unfold isValidCore specIsValidIPv6
  by_cases h1 : countDColon t > 1
  · rw [if_pos h1]
    refine iff_of_false (by simp) fun hp => ?_
    have := hp.1
    omega
  · rw [if_neg h1, Bool.and_eq_true, List.all_eq_true]
    by_cases h2 : countDColon t = 1
    · rw [if_pos h2, Bool.not_eq_true', decide_eq_false_iff_not, Nat.not_lt]
      constructor
      · rintro ⟨hle, hall⟩
        exact ⟨by omega, fun h0 => by omega, fun _ => hle,
          fun g hg => (segmentOk_iff g).1 (hall g hg)⟩
      · rintro ⟨-, -, hle, hall⟩
        exact ⟨hle h2, fun g hg => (segmentOk_iff g).2 (hall g hg)⟩
    · rw [if_neg h2, Bool.not_eq_true', decide_eq_false_iff_not, not_not]
      constructor
      · rintro ⟨hlen, hall⟩
        exact ⟨by omega, fun _ => hlen, fun hc => absurd hc h2,
          fun g hg => (segmentOk_iff g).1 (hall g hg)⟩
      · rintro ⟨-, hlen, -, hall⟩
        exact ⟨hlen (by omega), fun g hg => (segmentOk_iff g).2 (hall g hg)⟩

/-- C5 (amended): the validator returns true exactly when the claim's
conditions hold of the input after trimming leading and trailing
whitespace: at most one `::` occurrence; without `::` exactly 8
colon-separated groups; with one `::` the groups before plus after total
at most 7; every non-empty group is 1-4 hex digits. -/
theorem isValidIPv6Address_iff_spec (s : List Char) :
    isValidIPv6Address s = true ↔ specIsValidIPv6 (jsTrim s) := by
  unfold isValidIPv6Address
  rcases eq_or_ne s [] with h | h
  · subst h
    rw [if_pos rfl]
    exact iff_of_false (by simp) (by decide)
  · rw [if_neg h]
    exact isValidCore_iff (jsTrim s)

/-- C5 counterexample: on the raw text ` ::1` (leading space) the
validator returns true because it trims first, while the claim's
conditions, read of the text itself, fail (the group before the `::` is a
space, not hex digits). -/
theorem isValid_trim_gap :
    isValidIPv6Address (lc r" ::1") = true ∧ ¬ specIsValidIPv6 (lc r" ::1") := by
  refine ⟨by decide, by decide⟩

/-- C8: whenever `calculateIPv6Subnet` produces a result for a prefix
length in `[0, 128]`, its totalAddresses field is the literal `1` for
prefix 128 and otherwise `2^` followed by the decimal rendering of
`128 − prefixLength`. -/
theorem calculateIPv6Subnet_totalAddresses (addr : List Char) (p : Int)
    (r : IPv6SubnetResults) (h0 : 0 ≤ p) (h128 : p ≤ 128)
    (h : calculateIPv6Subnet addr p = some r) :
    r.totalAddresses = if p = 128 then ['1'] else ['2', '^'] ++ jsIntToStr 10 (128 - p) := by
  unfold calculateIPv6Subnet at h
  split at h
  · exact absurd h (by simp)
  · rename_i e heq
    by_cases hee : e = []
    · rw [if_pos hee] at h
      exact absurd h (by simp)
    · rw [if_neg hee] at h
      split at h
      · rename_i zs os hz ho
        injection h with h
        subst h
        by_cases hp : p = 128
        · subst hp
          norm_num
        · rw [if_neg hp]
          have hne : ¬ ((128 : Int) - p = 0) := by omega
          simp only [hne, if_false]
      · exact absurd h (by simp)

/-- C3 (amended): `calculateIPv6Subnet` returns null for every prefix
length above 128 (the negative `repeat` count throws and the `catch`
yields null) and whenever the expansion step fails (a thrown expansion
fault, or the empty expansion produced by an empty input or more than one
`::`).  It performs no validation of its own: an unparseable but
expandable address such as `zzzz` still yields a result, so range and
format checking live in the calling component, not here. -/
theorem calculateIPv6Subnet_null_cases :
    (∀ addr p, (128 : Int) < p → calculateIPv6Subnet addr p = none) ∧
    (∀ addr (p : Int), expandIPv6Address addr = none → calculateIPv6Subnet addr p = none) ∧
    (∀ addr (p : Int), expandIPv6Address addr = some [] → calculateIPv6Subnet addr p = none) ∧
    calculateIPv6Subnet (lc r"zzzz") 64 = some ⟨[], lc r":ffff:ffff:ffff:ffff", lc r"2^64"⟩ := by
  refine ⟨?_, ?_, ?_, by decide⟩
  · intro addr p hp
    unfold calculateIPv6Subnet
    split
    · rfl
    · rename_i e heq
      by_cases hee : e = []
      · rw [if_pos hee]
      · rw [if_neg hee]
        split
        · rename_i zs os hz ho
          exfalso
          unfold jsRepeat at hz
          rw [if_pos (by omega)] at hz
          exact absurd hz (by simp)
        · rfl
  · intro addr p he
    unfold calculateIPv6Subnet
    rw [he]
  · intro addr p he
    unfold calculateIPv6Subnet
    rw [he]
    rfl

/-- C3 counterexample: for the valid address `::` and the out-of-range
prefix length −1 the function does not return null; it returns a
(meaningless) result with a `2^129` count, because `substring` clamps the
negative index and nothing range-checks the prefix. -/
theorem calculateIPv6Subnet_negative_prefix_result :
    calculateIPv6Subnet (lc r"::") (-1)
      = some ⟨[], lc r"ffff:ffff:ffff:ffff:ffff:ffff:ffff:ffff", lc r"2^129"⟩ ∧
    (-1 : Int) < 0 ∧
    calculateIPv6Subnet (lc r"::") (-1) ≠ none := by
  refine ⟨by decide, by decide, by decide⟩

/-- Witness for C3: the amended theorem applied at prefix length 129. -/
theorem calculateIPv6Subnet_null_cases_witness :
    (128 : Int) < 129 ∧ calculateIPv6Subnet (lc r"a") 129 = none :=
  ⟨by decide, calculateIPv6Subnet_null_cases.1 (lc r"a") 129 (by decide)⟩

/-- Witness for C8: the theorem applied to the concrete `/64`
calculation. -/
theorem calculateIPv6Subnet_totalAddresses_witness :
    (⟨lc r"2001:db8:", lc r"2001:db8::ffff:ffff:ffff:ffff", lc r"2^64"⟩
        : IPv6SubnetResults).totalAddresses
      = if (64 : Int) = 128 then ['1'] else ['2', '^'] ++ jsIntToStr 10 (128 - 64) :=
  calculateIPv6Subnet_totalAddresses (lc r"2001:db8::") 64 _ (by decide) (by decide) (by decide)

/-- No segment produced by `split(':')` contains a colon. -/
theorem splitColon_mem_no_colon (s : List Char) :
    ∀ g ∈ splitColon s, ∀ c ∈ g, c ≠ ':' := by
  induction s with
  | nil =>
    intro g hg c hc
    simp only [splitColon, List.mem_singleton] at hg
    subst hg
    simp at hc
  | cons a rest ih =>
    intro g hg c hc
    by_cases ha : a = ':'
    · rw [splitColon, if_pos ha] at hg
      rcases List.mem_cons.1 hg with hg | hg
      · subst hg
        simp at hc
      · exact ih g hg c hc
    · rw [splitColon, if_neg ha] at hg
      cases hsp : splitColon rest with
      | nil =>
        rw [hsp] at hg
        rcases List.mem_singleton.1 hg with rfl
        rcases List.mem_cons.1 hc with rfl | hc
        · exact ha
        · simp at hc
      | cons g0 gs =>
        rw [hsp] at hg
        rcases List.mem_cons.1 hg with rfl | hg
        · rcases List.mem_cons.1 hc with rfl | hc
          · exact ha
          · exact ih g0 (hsp ▸ List.mem_cons_self g0 gs) c hc
        · exact ih g (hsp ▸ List.mem_cons_of_mem g0 hg) c hc

/-- `split(':')` of a colon-free text is that text as a single segment. -/
theorem splitColon_of_no_colon (x : List Char) (hx : ∀ c ∈ x, c ≠ ':') :
    splitColon x = [x] := by
  induction x with
  | nil => rfl
  | cons a r ih =>
    have ha : a ≠ ':' := hx a (List.mem_cons_self a r)
    rw [splitColon, if_neg ha, ih (fun c hc => hx c (List.mem_cons_of_mem a hc))]

/-- `split(':')` peels a leading colon-free chunk up to the first
colon. -/
theorem splitColon_append_colon (x s : List Char) (hx : ∀ c ∈ x, c ≠ ':') :
    splitColon (x ++ ':' :: s) = x :: splitColon s := by
  induction x with
  | nil =>
    rw [List.nil_append, splitColon, if_pos rfl]
  | cons a r ih =>
    have ha : a ≠ ':' := hx a (List.mem_cons_self a r)
    rw [List.cons_append, splitColon, if_neg ha,
      ih (fun c hc => hx c (List.mem_cons_of_mem a hc))]

/-- `split(':')` inverts `join(':')` on a non-empty list of colon-free
segments. -/
theorem splitColon_joinColon (gs : List (List Char)) (h : gs ≠ [])
    (hc : ∀ g ∈ gs, ∀ c ∈ g, c ≠ ':') :
    splitColon (joinColon gs) = gs := by
  induction gs with
  | nil => exact absurd rfl h
  | cons g rest ih =>
    cases rest with
    | nil =>
      show splitColon (joinColon [g]) = [g]
      have hj : joinColon [g] = g := rfl
      rw [hj, splitColon_of_no_colon g (hc g (List.mem_cons_self g []))]
    | cons g2 rest2 =>
      have hj : joinColon (g :: g2 :: rest2) = g ++ ':' :: joinColon (g2 :: rest2) := by
        show g ++ [':'] ++ joinSep [':'] (g2 :: rest2) = _
        rw [List.append_assoc]
        rfl
      rw [hj, splitColon_append_colon g _ (hc g (List.mem_cons_self g _)),
        ih (by simp) (fun g' hg' => hc g' (List.mem_cons_of_mem g hg'))]

/-- The groups before the `::` contain no colon. -/
theorem beforeGroupsOf_no_colon (s : List Char) :
    ∀ g ∈ beforeGroupsOf s, ∀ c ∈ g, c ≠ ':' := by
  unfold beforeGroupsOf
  cases splitDColon s with
  | nil => simp
  | cons p rest =>
    dsimp only
    by_cases hp : p = []
    · simp [hp]
    · rw [if_neg hp]
      exact splitColon_mem_no_colon p

/-- The groups after the `::` contain no colon. -/
theorem afterGroupsOf_no_colon (s : List Char) :
    ∀ g ∈ afterGroupsOf s, ∀ c ∈ g, c ≠ ':' := by
  unfold afterGroupsOf
  cases hq : (splitDColon s).get? 1 with
  | none => simp
  | some p =>
    dsimp only
    by_cases hp : p = []
    · simp [hp]
    · rw [if_neg hp]
      exact splitColon_mem_no_colon p

/-- Zero-padding with `'0'` introduces no colon. -/
theorem padStart_no_colon (g : List Char) (hg : ∀ c ∈ g, c ≠ ':') :
    ∀ c ∈ padStart 4 '0' g, c ≠ ':' := by
  intro c hc
  unfold padStart at hc
  rcases List.mem_append.1 hc with h | h
  · rw [List.eq_of_mem_replicate h]
    decide
  · exact hg c h

/-- The expander agrees with the spec-side description of its
behaviour. -/
theorem expandIPv6Address_eq_spec (s : List Char) :
    expandIPv6Address s = specExpandIPv6 s := by
  unfold expandIPv6Address specExpandIPv6
  by_cases h0 : s = []
  · rw [if_pos h0, if_pos (Or.inl h0)]
  · by_cases h2 : (splitDColon s).length > 2
    · rw [if_neg h0, if_pos h2, if_pos (Or.inr h2)]
    · have hor : ¬ (s = [] ∨ 2 < (splitDColon s).length) := by
        rintro (h | h)
        · exact h0 h
        · exact h2 h
      rw [if_neg h0, if_neg h2, if_neg hor]
      by_cases hm : expandMissing s < 0
      · have h8 : 8 < (beforeGroupsOf s).length + (afterGroupsOf s).length := by
          unfold expandMissing at hm
          omega
        rw [if_pos hm, if_pos h8]
      · have h8 : ¬ 8 < (beforeGroupsOf s).length + (afterGroupsOf s).length := by
          unfold expandMissing at hm
          omega
        rw [if_neg hm, if_neg h8]
        have hcount : (expandMissing s).toNat
            = 8 - ((beforeGroupsOf s).length + (afterGroupsOf s).length) := by
          unfold expandMissing
          omega
        rw [hcount]

/-- C4 (amended): `expandIPv6Address` returns the empty string exactly for
an empty input or more than one `::`; it throws when the groups around the
`::` already exceed 8; otherwise it returns the colon-join of the before
groups zero-padded to 4, the missing all-zero groups, and the after groups
zero-padded to 4 — verbatim from the input, with no hex validation and no
lowercasing — and every such non-empty result splits into exactly 8
groups. -/
theorem expandIPv6Address_amended (s : List Char) :
    expandIPv6Address s = specExpandIPv6 s ∧
    ∀ e, expandIPv6Address s = some e → e ≠ [] → (splitColon e).length = 8 := by
  refine ⟨expandIPv6Address_eq_spec s, ?_⟩
  intro e he hne
  rw [expandIPv6Address_eq_spec s] at he
  unfold specExpandIPv6 at he
  split_ifs at he with hA hB
  · injection he with he
    exact absurd he.symm hne
  · injection he with he
    subst he
    have hfree : ∀ g ∈ ((beforeGroupsOf s).map (padStart 4 '0')
        ++ List.replicate (8 - ((beforeGroupsOf s).length + (afterGroupsOf s).length)) zero4
        ++ (afterGroupsOf s).map (padStart 4 '0')), ∀ c ∈ g, c ≠ ':' := by
      intro g hg
      rcases List.mem_append.1 hg with hg | hg
      · rcases List.mem_append.1 hg with hg | hg
        · rcases List.mem_map.1 hg with ⟨g0, hg0, rfl⟩
          exact padStart_no_colon g0 (beforeGroupsOf_no_colon s g0 hg0)
        · rw [List.eq_of_mem_replicate hg]
          decide
      · rcases List.mem_map.1 hg with ⟨g0, hg0, rfl⟩
        exact padStart_no_colon g0 (afterGroupsOf_no_colon s g0 hg0)
    have hlen8 : ((beforeGroupsOf s).map (padStart 4 '0')
        ++ List.replicate (8 - ((beforeGroupsOf s).length + (afterGroupsOf s).length)) zero4
        ++ (afterGroupsOf s).map (padStart 4 '0')).length = 8 := by
      simp only [List.length_append, List.length_map, List.length_replicate]
      omega
    have hne2 : ((beforeGroupsOf s).map (padStart 4 '0')
        ++ List.replicate (8 - ((beforeGroupsOf s).length + (afterGroupsOf s).length)) zero4
        ++ (afterGroupsOf s).map (padStart 4 '0')) ≠ [] := by
      intro hnil
      rw [hnil] at hlen8
      simp at hlen8
    rw [splitColon_joinColon _ hne2 hfree]
    exact hlen8

/-- C4 counterexample: `zzzz` is not a valid IPv6 address, yet the
expander returns neither the empty string nor 8 lowercase-hex groups — it
pads the bogus group verbatim. -/
theorem expandIPv6Address_no_validation :
    expandIPv6Address (lc r"zzzz") = some (lc r"zzzz:0000:0000:0000:0000:0000:0000:0000") ∧
    isValidIPv6Address (lc r"zzzz") = false ∧
    lc r"zzzz:0000:0000:0000:0000:0000:0000:0000" ≠ [] ∧
    isHexDigit 'z' = false := by
  refine ⟨by decide, by decide, by decide, by decide⟩

/-- Witness for C4: the amended theorem applied at `1::2`. -/
theorem expandIPv6Address_amended_witness :
    expandIPv6Address (lc r"1::2") = specExpandIPv6 (lc r"1::2") ∧
    (splitColon (lc r"0001:0000:0000:0000:0000:0000:0000:0002")).length = 8 :=
  ⟨(expandIPv6Address_amended (lc r"1::2")).1,
    (expandIPv6Address_amended (lc r"1::2")).2
      (lc r"0001:0000:0000:0000:0000:0000:0000:0002") (by decide) (by decide)⟩

set_option maxHeartbeats 4000000

/-- The compressor's scan satisfies its leftmost-longest-run
characterisation on every length-8 mask (exhaustive check of all 256
masks). -/
theorem scanMaskChar : ∀ b0 b1 b2 b3 b4 b5 b6 b7 : Bool,
    scanOk [b0, b1, b2, b3, b4, b5, b6, b7] := by decide

/-- The segment scan is the mask scan of the zero-group mask. -/
theorem zeroScanGo_eq_mask (segs : List (List Char)) : ∀ (n : Nat) (st : ZeroScan),
    zeroScanGo n st segs = zeroScanGoM n st (zeroMask segs) := by
  induction segs with
  | nil =>
    intro n st
    rfl
  | cons g rest ih =>
    intro n st
    simp only [zeroScanGo, zeroMask, List.map_cons, zeroScanGoM]
    exact ih (n + 1) _

/-- The scan characterisation for an arbitrary mask of length 8. -/
theorem scanOk_of_len8 (m : List Bool) (hm : m.length = 8) : scanOk m := by
  rcases m with _ | ⟨b0, m⟩
  · simp at hm
  rcases m with _ | ⟨b1, m⟩
  · simp at hm
  rcases m with _ | ⟨b2, m⟩
  · simp at hm
  rcases m with _ | ⟨b3, m⟩
  · simp at hm
  rcases m with _ | ⟨b4, m⟩
  · simp at hm
  rcases m with _ | ⟨b5, m⟩
  · simp at hm
  rcases m with _ | ⟨b6, m⟩
  · simp at hm
  rcases m with _ | ⟨b7, m⟩
  · simp at hm
  rcases m with _ | ⟨b8, m⟩
  · exact scanMaskChar b0 b1 b2 b3 b4 b5 b6 b7
  · simp at hm

/-- `Array.slice` at a natural index within bounds is `take`/`drop`
index. -/
theorem jsSliceIdx_ofNat (len n : Nat) (h : n ≤ len) : jsSliceIdx len ((n : Nat) : Int) = n := by
  unfold jsSliceIdx
  rw [if_neg (by omega), Int.toNat_ofNat]
  exact Nat.min_eq_left h

/-- C7 (amended): for 8 full hextet groups whose zero-group mask has a
leftmost maximal all-zero run at `i` of length `l ≥ 2` — in particular
whenever two or more distinct maximal runs tie at that length — the
compressor elides exactly the first such run: the output is the colon-join
of the rendered groups before `i`, one empty group, and the rendered
groups from `i + l` on, so every later equal-length run stays, rendered
group by group.  (A tie at maximal length 1 compresses nothing; see the
counterexample.) -/
theorem compressIPv6Address_tiebreak (gs : List (List Char)) (i l : Nat)
    (hlen : gs.length = 8)
    (hhex : ∀ g ∈ gs, g.length = 4 ∧ ∀ c ∈ g, isHexDigit c = true)
    (hrun : isZeroRun (zeroMask gs) i l)
    (hmax : ∀ j, j ≤ 8 → ∀ k, k ≤ 8 → isZeroRun (zeroMask gs) j k → k ≤ l)
    (hleft : ∀ j, j ≤ 8 → isZeroRun (zeroMask gs) j l → i ≤ j)
    (htie : ∃ j, j ≤ 8 ∧ j ≠ i ∧ isZeroRun (zeroMask gs) j l)
    (hl2 : 2 ≤ l) :
    compressIPv6Address (joinColon gs)
      = joinColon ((gs.take i).map renderSeg ++ [[]] ++ (gs.drop (i + l)).map renderSeg) := by
  have hmask : (zeroMask gs).length = 8 := by
    simp [zeroMask, hlen]
  have hscan : scanOk (zeroMask gs) := scanOk_of_len8 _ hmask
  have hil8 : i + l ≤ 8 := by
    have := hrun.2.1
    omega
  have hl_le : l ≤ (zeroScanGoM 0 ⟨-1, 0, -1, 0⟩ (zeroMask gs)).longestZeroLength :=
    hscan.1 i (by omega) l (by omega) hrun
  have hstL2 : 2 ≤ (zeroScanGoM 0 ⟨-1, 0, -1, 0⟩ (zeroMask gs)).longestZeroLength :=
    le_trans hl2 hl_le
  obtain ⟨hpos, hrunSt, hleftSt⟩ := hscan.2 hstL2
  have hstB : (zeroScanGoM 0 ⟨-1, 0, -1, 0⟩ (zeroMask gs)).longestZeroStart.toNat
      + (zeroScanGoM 0 ⟨-1, 0, -1, 0⟩ (zeroMask gs)).longestZeroLength ≤ 8 := by
    have := hrunSt.2.1
    omega
  have hstL_le : (zeroScanGoM 0 ⟨-1, 0, -1, 0⟩ (zeroMask gs)).longestZeroLength ≤ l :=
    hmax _ (by omega) _ (by omega) hrunSt
  have hL : (zeroScanGoM 0 ⟨-1, 0, -1, 0⟩ (zeroMask gs)).longestZeroLength = l :=
    le_antisymm hstL_le hl_le
  have hi1 : i ≤ (zeroScanGoM 0 ⟨-1, 0, -1, 0⟩ (zeroMask gs)).longestZeroStart.toNat :=
    hleft _ (by omega) (hL ▸ hrunSt)
  have hi2 : (zeroScanGoM 0 ⟨-1, 0, -1, 0⟩ (zeroMask gs)).longestZeroStart.toNat ≤ i :=
    hleftSt i (by omega) (hL ▸ hrun)
  have his : (zeroScanGoM 0 ⟨-1, 0, -1, 0⟩ (zeroMask gs)).longestZeroStart.toNat = i :=
    le_antisymm hi2 hi1
  have hcolonfree : ∀ g ∈ gs, ∀ c ∈ g, c ≠ ':' := by
    intro g hg c hc hceq
    have hx := (hhex g hg).2 c hc
    rw [hceq] at hx
    exact absurd hx (by decide)
  have hgs_ne : gs ≠ [] := by
    intro h
    rw [h] at hlen
    simp at hlen
  have hsegs : splitColon (joinColon gs) = gs := splitColon_joinColon gs hgs_ne hcolonfree
  have hSS : (zeroScanGoM 0 ⟨-1, 0, -1, 0⟩ (zeroMask gs)).longestZeroStart = ((i : Nat) : Int) := by
    omega
  have hS1 : jsArrSlice gs 0 ((i : Nat) : Int) = gs.take i := by
    unfold jsArrSlice
    rw [jsSliceIdx_ofNat gs.length i (by omega)]
    have h0 : jsSliceIdx gs.length ((0 : Nat) : Int) = 0 :=
      jsSliceIdx_ofNat gs.length 0 (Nat.zero_le _)
    norm_num at h0
    rw [h0, List.drop_zero]
  have hS2 : jsArrSliceFrom gs (((i : Nat) : Int) + ((l : Nat) : Int)) = gs.drop (i + l) := by
    unfold jsArrSliceFrom
    have hc : ((i : Nat) : Int) + ((l : Nat) : Int) = (((i + l : Nat)) : Int) := by
      push_cast
      ring
    rw [hc, jsSliceIdx_ofNat gs.length (i + l) (by omega)]
  unfold compressIPv6Address
  dsimp only
  rw [hsegs, zeroScanGo_eq_mask]
  rw [if_pos (show (zeroScanGoM 0 ⟨-1, 0, -1, 0⟩ (zeroMask gs)).longestZeroLength ≥ 2 from hstL2)]
  rw [hSS, hL, hS1, hS2]

/-- C7 counterexample: with two tying maximal all-zero runs of length 1
(positions 0 and 2) the compressor elides nothing at all — every one of
the 8 groups survives, so the first run is not compressed as the claim
states. -/
theorem compressIPv6Address_tie_len1 :
    compressIPv6Address (lc r"0000:0001:0000:0001:0001:0001:0001:0001") = lc r"0:1:0:1:1:1:1:1" ∧
    isZeroRun (zeroMask [zero4, lc r"0001", zero4, lc r"0001", lc r"0001", lc r"0001",
      lc r"0001", lc r"0001"]) 0 1 ∧
    isZeroRun (zeroMask [zero4, lc r"0001", zero4, lc r"0001", lc r"0001", lc r"0001",
      lc r"0001", lc r"0001"]) 2 1 ∧
    (∀ j, j ≤ 8 → ∀ k, k ≤ 8 → isZeroRun (zeroMask [zero4, lc r"0001", zero4, lc r"0001",
      lc r"0001", lc r"0001", lc r"0001", lc r"0001"]) j k → k ≤ 1) ∧
    (∀ g ∈ splitColon (compressIPv6Address (lc r"0000:0001:0000:0001:0001:0001:0001:0001")),
      g ≠ []) := by
  refine ⟨by decide, by decide, by decide, by decide, by decide⟩

/-- Witness for C7: the theorem applied to a concrete tie (maximal runs of
length 2 at positions 1 and 4). -/
theorem compressIPv6Address_tiebreak_witness :
    compressIPv6Address (joinColon [lc r"0001", zero4, zero4, lc r"0001", zero4, zero4,
        lc r"0001", lc r"0001"])
      = joinColon (([lc r"0001", zero4, zero4, lc r"0001", zero4, zero4,
            lc r"0001", lc r"0001"].take 1).map renderSeg
          ++ [[]]
          ++ ([lc r"0001", zero4, zero4, lc r"0001", zero4, zero4,
            lc r"0001", lc r"0001"].drop 3).map renderSeg) :=
  compressIPv6Address_tiebreak
    [lc r"0001", zero4, zero4, lc r"0001", zero4, zero4, lc r"0001", lc r"0001"] 1 2
    (by decide) (by decide) (by decide) (by decide) (by decide)
    ⟨4, by decide, by decide, by decide⟩ (by decide)
